import Mathlib

/-!
Verification development for the DOBASHI mention-detection engine.

Shallow embedding of `src/analyzers/comment_analyzer.py` (class
`CommentAnalyzer`) and `src/aggregators/stats_aggregator.py` (class
`StatsAggregator`).  Text is modelled as a list of Unicode code points
(`List Nat`); Python dictionaries are modelled as insertion-ordered
association lists; Python float division in the aggregator is modelled
over `ℚ`; Python `KeyError` propagation is modelled with `Option`.
-/

/-- Code points of a string literal (for writing concrete Japanese texts). -/
def cpOf (s : String) : List Nat := s.data.map Char.toNat

/-- Python whitespace (`\s` of the `re` module / `str.strip`): ASCII
whitespace, the C1 separators, and the Unicode space characters. -/
def isSpaceCp (n : Nat) : Bool :=
  decide (n = 32 ∨ (9 ≤ n ∧ n ≤ 13) ∨ (28 ≤ n ∧ n ≤ 31) ∨ n = 133 ∨ n = 160 ∨
    n = 5760 ∨ (8192 ≤ n ∧ n ≤ 8202) ∨ n = 8232 ∨ n = 8233 ∨ n = 8239 ∨
    n = 8287 ∨ n = 12288)

/-- Model of `unicodedata.normalize('NFKC', ·)` restricted to the character
material this program works with: full-width ASCII forms (U+FF01-U+FF5E) fold
to ASCII, the ideographic space U+3000 folds to an ASCII space, every other
code point (CJK ideographs, kana, ASCII) is NFKC-stable and left unchanged. -/
def nfkcCp (n : Nat) : Nat :=
  if 0xFF01 ≤ n ∧ n ≤ 0xFF5E then n - 0xFEE0
  else if n = 0x3000 then 32
  else n

/-- Model of `re.sub(r'\s+', ' ', text)`: each maximal run of whitespace
becomes one ASCII space.  The flag records whether we are inside a run. -/
def collapseAux : Bool → List Nat → List Nat
  | _, [] => []
  | inRun, c :: rest =>
    if isSpaceCp c then
      if inRun then collapseAux true rest else 32 :: collapseAux true rest
    else c :: collapseAux false rest

/-- `re.sub(r'\s+', ' ', text)` (comment_analyzer.py line 61). -/
def collapseWS (l : List Nat) : List Nat := collapseAux false l

/-- Remove leading whitespace. -/
def ltrim (l : List Nat) : List Nat := l.dropWhile (fun c => isSpaceCp c)

/-- Remove trailing whitespace. -/
def rtrim (l : List Nat) : List Nat := (ltrim l.reverse).reverse

/-- Python `str.strip()` (comment_analyzer.py line 64). -/
def stripWS (l : List Nat) : List Nat := rtrim (ltrim l)

/-- `CommentAnalyzer.normalize_text` (comment_analyzer.py lines 47-66):
NFKC fold, collapse whitespace runs to one space, strip both ends. -/
def normalize_text (text : List Nat) : List Nat :=
  stripWS (collapseWS (text.map nfkcCp))

/-- Two adjacent output characters are never both whitespace (invariant
of the collapsed form, used for the idempotence proof). -/
def spaceAdj (a b : Nat) : Prop := isSpaceCp a = false ∨ isSpaceCp b = false

/-- `JAPANESE_CHAR_PATTERN = r'[一-龠ぁ-んァ-ヶー]'` (line 12). -/
def japaneseChar (n : Nat) : Bool :=
  decide ((0x4E00 ≤ n ∧ n ≤ 0x9FA0) ∨ (0x3041 ≤ n ∧ n ≤ 0x3093) ∨
    (0x30A1 ≤ n ∧ n ≤ 0x30F6) ∨ n = 0x30FC)

/-- `ALPHANUMERIC_PATTERN = r'[a-zA-Z0-9]'` (line 13). -/
def alnumChar (n : Nat) : Bool :=
  decide ((97 ≤ n ∧ n ≤ 122) ∨ (65 ≤ n ∧ n ≤ 90) ∨ (48 ≤ n ∧ n ≤ 57))

/-- The honorific alternatives of `SUFFIX_PATTERN` (line 16). -/
def suffixWords : List (List Nat) :=
  [cpOf ("社長"), cpOf ("さん"), cpOf ("氏"), cpOf ("先生"), cpOf ("ちゃん"),
   cpOf ("くん"), cpOf ("君")]

/-- `re.match(SUFFIX_PATTERN, t)`: does `t` begin with an honorific? -/
def startsWithSuffix (t : List Nat) : Bool :=
  suffixWords.any (fun w => w.isPrefixOf t)

/-- `re.search(SUFFIX_PATTERN + r'$', a)`: does `a` end with an honorific? -/
def endsWithSuffix (a : List Nat) : Bool :=
  suffixWords.any (fun w => w.isSuffixOf a)

/-- The particle exception list of `_is_word_boundary` (line 87). -/
def particles : List Nat := cpOf ("はがをにへとやのでも")

/-- `CommentAnalyzer._is_word_boundary` (lines 68-107). -/
def is_word_boundary (text : List Nat) (s e : Nat) (a : List Nat) : Bool :=
  let leftOk : Bool :=
    if 0 < s then
      let prev := text.getD (s - 1) 0
      if japaneseChar prev || alnumChar prev then particles.contains prev
      else true
    else true
  if leftOk then
    if e < text.length then
      let next := text.getD e 0
      if japaneseChar next || alnumChar next then
        if endsWithSuffix a then true
        else if 4 ≤ a.length then true
        else startsWithSuffix (text.drop e)
      else true
    else true
  else false

/-- Scan for the first occurrence of `a` in `text` at an index `≥ start`,
with explicit fuel (structural recursion so the kernel can evaluate). -/
def findFromAux (text a : List Nat) : Nat → Nat → Option Nat
  | _, 0 => none
  | start, Nat.succ fuel =>
    if start + a.length ≤ text.length then
      if a.isPrefixOf (text.drop start) then some start
      else findFromAux text a (start + 1) fuel
    else none

/-- Python `text.find(alias, start)` (line 123); `text.length + 1 - start`
fuel covers every index the Python scan can visit. -/
def str_find (text a : List Nat) (start : Nat) : Option Nat :=
  findFromAux text a start (text.length + 1 - start)

/-- Loop body of `CommentAnalyzer._match_alias_with_boundary`
(lines 121-140), with fuel for the strictly increasing restart index. -/
def matchAux (a text : List Nat) (require_suffix : Bool) :
    Nat → Nat → Option Nat
  | _, 0 => none
  | start, Nat.succ fuel =>
    match str_find text a start with
    | none => none
    | some pos =>
      if is_word_boundary text pos (pos + a.length) a then
        if require_suffix then
          if startsWithSuffix (text.drop (pos + a.length)) then some pos
          else matchAux a text require_suffix (pos + 1) fuel
        else some pos
      else matchAux a text require_suffix (pos + 1) fuel

/-- `CommentAnalyzer._match_alias_with_boundary` (lines 109-142).  The
Python loop restarts at `pos + 1` after every rejection and stops once
`find` fails, so it runs at most `text.length + 1` iterations. -/
def match_alias_with_boundary (a text : List Nat) (require_suffix : Bool) :
    Option Nat :=
  matchAux a text require_suffix 0 (text.length + 1)

/-- `CommentAnalyzer._should_require_suffix` (lines 144-163). -/
def should_require_suffix (a : List Nat) (alias_type : String) : Bool :=
  if a.length ≤ 3 ∧ (alias_type = "short" ∨ alias_type = "casual" ∨
      alias_type = "hiragana" ∨ alias_type = "katakana") then true
  else if a.length ≤ 2 then true
  else false

/-- `CommentAnalyzer.TYPE_PRIORITY` with the `.get(type, 99)` default
(lines 19-29 and 184). -/
def TYPE_PRIORITY (t : String) : Nat :=
  if t = "fullname" then 1
  else if t = "formal" then 2
  else if t = "nickname" then 3
  else if t = "casual" then 4
  else if t = "business" then 5
  else if t = "firstname" then 6
  else if t = "hiragana" then 7
  else if t = "katakana" then 8
  else if t = "short" then 9
  else 99

/-- `CommentAnalyzer._calculate_match_score` (lines 165-186). -/
def calculate_match_score (a : List Nat) (priority : Int)
    (alias_type : String) : Int × Int × Int :=
  (-(a.length : Int), priority, (TYPE_PRIORITY alias_type : Int))

/-- Python `<` on 3-tuples of ints: strict lexicographic comparison,
used at line 255 (`match['score'] < best_matches[tiger_id]['score']`). -/
def scoreLt (x y : Int × Int × Int) : Bool :=
  decide (x.1 < y.1 ∨ (x.1 = y.1 ∧
    (x.2.1 < y.2.1 ∨ (x.2.1 = y.2.1 ∧ x.2.2 < y.2.2))))

/-- An alias-dictionary row (`data/aliases.json` entry).  Each field is
`Option` because the Python code indexes the row with `['alias']`,
`['type']`, `['priority']`, which raises `KeyError` when absent. -/
structure AliasEntry where
  aliasText : Option (List Nat)
  type : Option String
  priority : Option Int
deriving DecidableEq

/-- One element of `all_matches` (comment_analyzer.py lines 242-249). -/
structure AliasMatch where
  tiger_id : String
  aliasText : List Nat
  type : String
  priority : Int
  position : Nat
  score : Int × Int × Int
deriving DecidableEq

/-- One element of the returned `mentions` list (lines 261-266). -/
structure Mention where
  tiger_id : String
  matched_alias : List Nat
  alias_type : String
  priority : Int
deriving DecidableEq

/-- Ordered-dictionary lookup (`d[k]` / `k in d`). -/
def dictFind {α : Type} : List (String × α) → String → Option α
  | [], _ => none
  | (k, v) :: rest, key => if k = key then some v else dictFind rest key

/-- Ordered-dictionary assignment `d[k] = v`: replace in place when the key
exists (Python dicts keep the original position), else append. -/
def dictInsert {α : Type} : List (String × α) → String → α → List (String × α)
  | [], key, v => [(key, v)]
  | (k, w) :: rest, key, v =>
    if k = key then (key, v) :: rest else (k, w) :: dictInsert rest key v

/-- The inner alias loop of `find_tiger_mentions` (lines 229-249) for one
tiger: try every alias row in order, collect the matches; a row missing a
field raises `KeyError` (modelled as `none`). -/
def collectForTiger (ntext : List Nat) (tiger_id : String) :
    List AliasEntry → Option (List AliasMatch)
  | [] => some []
  | e :: rest =>
    match e.aliasText, e.type, e.priority with
    | some a, some ty, some pr =>
      (match collectForTiger ntext tiger_id rest with
       | none => none
       | some ms =>
         match match_alias_with_boundary a ntext (should_require_suffix a ty) with
         | some pos =>
           some ({ tiger_id := tiger_id, aliasText := a, type := ty, priority := pr,
                   position := pos,
                   score := calculate_match_score a pr ty } :: ms)
         | none => some ms)
    | _, _, _ => none

/-- The outer tiger loop of `find_tiger_mentions` (lines 225-249): tigers
absent from the alias dictionary are skipped (`continue`). -/
def collectAll (aliases : List (String × List AliasEntry)) (ntext : List Nat) :
    List String → Option (List AliasMatch)
  | [] => some []
  | tid :: rest =>
    match dictFind aliases tid with
    | none => collectAll aliases ntext rest
    | some entries =>
      match collectForTiger ntext tid entries with
      | none => none
      | some ms =>
        match collectAll aliases ntext rest with
        | none => none
        | some more => some (ms ++ more)

/-- One step of the winner-selection loop (lines 252-256): store the match
when its tiger is new, replace when its score is strictly smaller. -/
def stepBest (bm : List (String × AliasMatch)) (m : AliasMatch) :
    List (String × AliasMatch) :=
  match dictFind bm m.tiger_id with
  | none => bm ++ [(m.tiger_id, m)]
  | some old =>
    if scoreLt m.score old.score then dictInsert bm m.tiger_id m else bm

/-- `CommentAnalyzer.find_tiger_mentions` (lines 188-271).  `tigersKeys`
models `list(self.tigers.keys())`, the fallback roster used (with a
warning) when `target_tigers` is `None` or empty.  Returns the normalized
text and the mention list, or `none` when a malformed alias row raised. -/
def find_tiger_mentions (tigersKeys : List String)
    (aliases : List (String × List AliasEntry)) (comment_text : List Nat)
    (target_tigers : List String) : Option (List Nat × List Mention) :=
  let normalized_text := normalize_text comment_text
  let targets := if target_tigers.isEmpty then tigersKeys else target_tigers
  match collectAll aliases normalized_text targets with
  | none => none
  | some all_matches =>
    let best := all_matches.foldl stepBest []
    some (normalized_text,
      best.map (fun p =>
        { tiger_id := p.fst, matched_alias := p.snd.aliasText,
          alias_type := p.snd.type, priority := p.snd.priority }))

/-- A raw input comment (`{'comment_id', 'text'}`). -/
structure CommentIn where
  comment_id : String
  text : List Nat
deriving DecidableEq

/-- A comment enriched by `analyze_comments` (lines 296-300). -/
structure AnalyzedComment where
  comment_id : String
  text : List Nat
  normalized_text : List Nat
  tiger_mentions : List Mention
deriving DecidableEq

/-- `CommentAnalyzer.analyze_comments` (lines 273-302). -/
def analyze_comments (tigersKeys : List String)
    (aliases : List (String × List AliasEntry)) :
    List CommentIn → List String → Option (List AnalyzedComment)
  | [], _ => some []
  | c :: rest, target_tigers =>
    match find_tiger_mentions tigersKeys aliases c.text target_tigers with
    | none => none
    | some r =>
      match analyze_comments tigersKeys aliases rest target_tigers with
      | none => none
      | some others =>
        some ({ comment_id := c.comment_id, text := c.text,
                normalized_text := r.fst, tiger_mentions := r.snd } :: others)

/-- Per-tiger record of `calculate_video_stats` (stats_aggregator.py
lines 62-68, rank added at line 78). -/
structure TigerStat where
  tiger_id : String
  display_name : String
  N_tiger : Nat
  Rate_total : ℚ
  Rate_entity : ℚ
  rank : Nat

/-- Result shape of `calculate_video_stats` (lines 80-84). -/
structure VideoStats where
  N_total : Nat
  N_entity : Nat
  tiger_stats : List (String × TigerStat)

/-- `any(m['tiger_id'] == tiger_id for m in comment['tiger_mentions'])`. -/
def mentionsTiger (c : AnalyzedComment) (tid : String) : Bool :=
  c.tiger_mentions.any (fun m => m.tiger_id == tid)

/-- The per-tiger body of the loop at stats_aggregator.py lines 49-68.
`dictFind tigers tid = none` models the `KeyError` raised by
`self.tigers[tiger_id]['display_name']` at line 64. -/
def videoTigerStat (tigers : List (String × String))
    (analyzed : List AnalyzedComment) (N_total N_entity : Nat)
    (tid : String) : Option TigerStat :=
  match dictFind tigers tid with
  | none => none
  | some dname =>
    let N_tiger := analyzed.countP (fun c => mentionsTiger c tid)
    some { tiger_id := tid, display_name := dname, N_tiger := N_tiger,
           Rate_total :=
             if 0 < N_total then (N_tiger : ℚ) / (N_total : ℚ) * 100 else 0,
           Rate_entity :=
             if 0 < N_entity then (N_tiger : ℚ) / (N_entity : ℚ) * 100 else 0,
           rank := 0 }

/-- The `for tiger_id in appearing_tigers` accumulation loop
(lines 49-68), building the `tiger_stats` ordered dictionary. -/
def buildTigerStats (tigers : List (String × String))
    (analyzed : List AnalyzedComment) (N_total N_entity : Nat) :
    List String → List (String × TigerStat) →
    Option (List (String × TigerStat))
  | [], acc => some acc
  | tid :: rest, acc =>
    match videoTigerStat tigers analyzed N_total N_entity tid with
    | none => none
    | some st =>
      buildTigerStats tigers analyzed N_total N_entity rest
        (dictInsert acc tid st)

/-- Stable insertion for a descending sort: a later element is placed
after every earlier element whose key is `≥` its own. -/
def insertByRate (x : TigerStat) : List TigerStat → List TigerStat
  | [] => [x]
  | y :: rest =>
    if y.Rate_total < x.Rate_total then x :: y :: rest
    else y :: insertByRate x rest

/-- `sorted(tiger_stats.values(), key=lambda x: x['Rate_total'],
reverse=True)` (lines 71-75): Python's sort is stable, and stable
descending sort is computed exactly by left-to-right stable insertion. -/
def sortByRateDesc (l : List TigerStat) : List TigerStat :=
  l.foldl (fun acc x => insertByRate x acc) []

/-- Rank-assignment loop: give the element at position `i` of the sorted
list the rank `r + i`. -/
def assignRanksAux : Nat → List TigerStat → List TigerStat
  | _, [] => []
  | r, s :: rest => { s with rank := r } :: assignRanksAux (r + 1) rest

/-- `for rank, stat in enumerate(sorted_stats, start=1)` (lines 77-78). -/
def assignRanks (l : List TigerStat) : List TigerStat := assignRanksAux 1 l

/-- `StatsAggregator.calculate_video_stats` (lines 19-84).  `tigers` is the
`self.tigers` roster as an ordered `id → display_name` dictionary.  The
`N_entity` denominator counts *distinct* `comment_id`s (a Python `set`),
while each `N_tiger` numerator counts comments. -/
def calculate_video_stats (tigers : List (String × String))
    (analyzed_comments : List AnalyzedComment)
    (appearing_tigers : List String) : Option VideoStats :=
  let N_total := analyzed_comments.length
  let N_entity :=
    (((analyzed_comments.filter
        (fun c => !c.tiger_mentions.isEmpty)).map
          (fun c => c.comment_id)).dedup).length
  match buildTigerStats tigers analyzed_comments N_total N_entity
      appearing_tigers [] with
  | none => none
  | some ts =>
    let ranked := assignRanks (sortByRateDesc (ts.map (fun p => p.snd)))
    some { N_total := N_total, N_entity := N_entity,
           tiger_stats := ranked.map (fun s => (s.tiger_id, s)) }

/-! ### Concrete instances used by claim theorems and witnesses -/

/-- Roster keys of the end-to-end scenario. -/
def cTigersKeys : List String := ["hayashi", "iwai"]

/-- Alias dictionary of the end-to-end scenario (§8 of the spec). -/
def cAliases : List (String × List AliasEntry) :=
  [("hayashi",
    [ { aliasText := some (cpOf ("林社長")), type := some ("formal"),
        priority := some 1 },
      { aliasText := some (cpOf ("林")), type := some ("short"),
        priority := some 2 } ]),
   ("iwai",
    [ { aliasText := some (cpOf ("岩井社長")), type := some ("formal"),
        priority := some 1 } ])]

/-- The three comments of the end-to-end scenario. -/
def cComments : List CommentIn :=
  [ { comment_id := "1", text := cpOf ("林社長すごい!") },
    { comment_id := "2", text := cpOf ("岩井社長と林社長の対決が面白い") },
    { comment_id := "3", text := cpOf ("面白かった") } ]

/-- Tiger roster (id, display name) of the end-to-end scenario. -/
def cTigers : List (String × String) := [("hayashi", "Hayashi"), ("iwai", "Iwai")]

/-- Appearing tigers of the end-to-end scenario. -/
def cApp : List String := ["hayashi", "iwai"]

/-- The full pipeline of the end-to-end scenario: analyze, then aggregate. -/
def cPipeline : Option VideoStats :=
  (analyze_comments cTigersKeys cAliases cComments cApp).bind
    (fun l => calculate_video_stats cTigers l cApp)

/-- Alias row 林太郎 (length 3, priority 1) of the tie-break scenario. -/
def taroEntry : AliasEntry :=
  { aliasText := some (cpOf ("林太郎")), type := some ("fullname"),
    priority := some 1 }

/-- Alias row 林 (length 1, priority 1) of the tie-break scenario. -/
def hayashiEntry : AliasEntry :=
  { aliasText := some (cpOf ("林")), type := some ("firstname"),
    priority := some 1 }

/-- A text in which both 林太郎 and 林 match. -/
def cText3 : List Nat := cpOf ("林太郎さんと林さん")

/-- Alias row 林田, score tuple exactly equal to `hayashiyamaEntry`'s. -/
def hayashidaEntry : AliasEntry :=
  { aliasText := some (cpOf ("林田")), type := some ("formal"),
    priority := some 1 }

/-- Alias row 林山, score tuple exactly equal to `hayashidaEntry`'s. -/
def hayashiyamaEntry : AliasEntry :=
  { aliasText := some (cpOf ("林山")), type := some ("formal"),
    priority := some 1 }

/-- A text in which both 林田 and 林山 match, with equal score tuples. -/
def cText4 : List Nat := cpOf ("林田さんと林山さん")

/-- An alias row missing its `'alias'` key. -/
def malformedEntry : AliasEntry :=
  { aliasText := none, type := some ("formal"), priority := some 1 }

/-- A well-formed alias row that matches the test text. -/
def goodEntry : AliasEntry :=
  { aliasText := some (cpOf ("林社長")), type := some ("formal"),
    priority := some 1 }

/-- Dictionary whose entity has a malformed row before a good one. -/
def malAliases : List (String × List AliasEntry) :=
  [("e", [malformedEntry, goodEntry])]

/-- Two analyzed comments sharing one `comment_id`, both mentioning `h`. -/
def dupAnalyzed : List AnalyzedComment :=
  [ { comment_id := "1", text := [], normalized_text := [],
      tiger_mentions :=
        [ { tiger_id := "h", matched_alias := [], alias_type := "formal",
            priority := 1 } ] },
    { comment_id := "1", text := [], normalized_text := [],
      tiger_mentions :=
        [ { tiger_id := "h", matched_alias := [], alias_type := "formal",
            priority := 1 } ] } ]

/-- Mention of hayashi via 林社長, as produced in the scenario. -/
def aM1 : Mention :=
  { tiger_id := "hayashi", matched_alias := cpOf ("林社長"),
    alias_type := "formal", priority := 1 }

/-- Mention of iwai via 岩井社長, as produced in the scenario. -/
def aM2 : Mention :=
  { tiger_id := "iwai", matched_alias := cpOf ("岩井社長"),
    alias_type := "formal", priority := 1 }

/-- The analyzed comments the scenario produces. -/
def aList : List AnalyzedComment :=
  [ { comment_id := "1", text := cpOf ("林社長すごい!"),
      normalized_text := cpOf ("林社長すごい!"), tiger_mentions := [aM1] },
    { comment_id := "2", text := cpOf ("岩井社長と林社長の対決が面白い"),
      normalized_text := cpOf ("岩井社長と林社長の対決が面白い"),
      tiger_mentions := [aM1, aM2] },
    { comment_id := "3", text := cpOf ("面白かった"),
      normalized_text := cpOf ("面白かった"), tiger_mentions := [] } ]

/-- Expected hayashi row of the scenario's video stats. -/
def stH : TigerStat :=
  { tiger_id := "hayashi", display_name := "Hayashi", N_tiger := 2,
    Rate_total := 200 / 3, Rate_entity := 100, rank := 1 }

/-- Expected iwai row of the scenario's video stats. -/
def stI : TigerStat :=
  { tiger_id := "iwai", display_name := "Iwai", N_tiger := 1,
    Rate_total := 100 / 3, Rate_entity := 50, rank := 2 }

/-- The per-tiger row produced on the duplicate-id input: the numerator
counts both comments, the set-based denominator collapses to 1. -/
def stDup : TigerStat :=
  { tiger_id := "h", display_name := "H", N_tiger := 2,
    Rate_total := 100, Rate_entity := 200, rank := 1 }

/-- The expected video stats of the end-to-end scenario. -/
def cVS : VideoStats :=
  { N_total := 3, N_entity := 2,
    tiger_stats := [("hayashi", stH), ("iwai", stI)] }

/-! ### Claim theorems: concrete evaluations -/

/-- Concrete evaluation of the scenario's video stats (shared helper). -/
theorem cStats_eval : calculate_video_stats cTigers aList cApp =
    some { N_total := 3, N_entity := 2,
           tiger_stats := [("hayashi", stH), ("iwai", stI)] } := by
  have h1 : ("hayashi" : String) ≠ "iwai" := by decide
  have h2 : (["1", "2"] : List String).dedup = ["1", "2"] := by decide
  norm_num [calculate_video_stats, buildTigerStats, videoTigerStat,
    dictFind, dictInsert, mentionsTiger, sortByRateDesc, insertByRate,
    assignRanks, assignRanksAux, List.countP_cons, List.countP_nil, h1, h2,
    aList, aM1, aM2, cTigers, cApp, stH, stI, TigerStat.mk.injEq]

/-- C4: the required-suffix flag is true exactly when the category is one of
short/casual/hiragana/katakana with alias length ≤ 3, or the alias length is
≤ 2 regardless of category, and false otherwise. -/
theorem should_require_suffix_iff (a : List Nat) (ty : String) :
    should_require_suffix a ty = true ↔
      ((ty = "short" ∨ ty = "casual" ∨ ty = "hiragana" ∨ ty = "katakana") ∧
        a.length ≤ 3) ∨ a.length ≤ 2 := by
  constructor
  · intro h
    unfold should_require_suffix at h
    split at h
    · rename_i hc; exact Or.inl ⟨hc.2, hc.1⟩
    · split at h
      · rename_i h2; exact Or.inr h2
      · cases h
  · intro h
    unfold should_require_suffix
    split
    · rfl
    · rename_i hc
      split
      · rfl
      · rename_i h2
        exfalso
        rcases h with ⟨hcat, hlen⟩ | hlen
        · exact hc ⟨hlen, hcat⟩
        · exact h2 hlen

/-- C5: the one-character alias 林 requires a suffix for every category, and
matching it (with the required-suffix gate) against 小林さんの話 yields no
match: its only occurrence is preceded by the CJK character 小, which is not
a particle, and the restarted scan exhausts the text. -/
theorem short_alias_boundary_rejected_in_kobayashi :
    (∀ ty : String, should_require_suffix (cpOf ("林")) ty = true) ∧
    match_alias_with_boundary (cpOf ("林")) (cpOf ("小林さんの話")) true =
      none := by
  constructor
  · intro ty
    unfold should_require_suffix
    split
    · rfl
    · split
      · rfl
      · rename_i h2
        exact absurd (by decide : (cpOf ("林")).length ≤ 2) h2
  · decide

/-- C3: the tie-break score is the tuple (negative alias length, authored
priority, fixed category rank) compared lexicographically with smallest
best; for an entity with aliases 林太郎 (len 3, priority 1) and 林 (len 1,
priority 1) both matching the text, 林太郎 survives in either dictionary
order; with exactly equal score tuples the alias scanned first survives. -/
theorem tiebreak_score_lex_and_longest_alias_wins :
    (∀ x y : Int × Int × Int, scoreLt x y = true ↔
        Prod.Lex (· < ·) (Prod.Lex (· < ·) (· < ·)) x y) ∧
    (∀ (a : List Nat) (pr : Int) (ty : String),
        calculate_match_score a pr ty =
          (-(a.length : Int), pr, (TYPE_PRIORITY ty : Int))) ∧
    ((find_tiger_mentions [] [("e", [taroEntry, hayashiEntry])] cText3
        ["e"]).map (fun r => r.2.map Mention.matched_alias) =
      some [cpOf ("林太郎")]) ∧
    ((find_tiger_mentions [] [("e", [hayashiEntry, taroEntry])] cText3
        ["e"]).map (fun r => r.2.map Mention.matched_alias) =
      some [cpOf ("林太郎")]) ∧
    ((find_tiger_mentions [] [("e", [hayashidaEntry, hayashiyamaEntry])]
        cText4 ["e"]).map (fun r => r.2.map Mention.matched_alias) =
      some [cpOf ("林田")]) ∧
    ((find_tiger_mentions [] [("e", [hayashiyamaEntry, hayashidaEntry])]
        cText4 ["e"]).map (fun r => r.2.map Mention.matched_alias) =
      some [cpOf ("林山")]) := by
  refine ⟨?_, fun a pr ty => rfl, by decide, by decide, by decide, by decide⟩
  intro x y
  simp only [scoreLt, decide_eq_true_eq, Prod.lex_def]

/-- C9: the end-to-end scenario: comment 1 yields exactly the hayashi
mention via 林社長, comment 2 yields hayashi via 林社長 and iwai via
岩井社長, comment 3 yields none; the video stats have N_total = 3,
N_entity = 2, hayashi with 2 mentions ranked 1, iwai with 1 mention
ranked 2. -/
theorem end_to_end_scenario :
    ((analyze_comments cTigersKeys cAliases cComments cApp).map
      (fun l => l.map (fun c =>
        c.tiger_mentions.map (fun m => (m.tiger_id, m.matched_alias)))) =
      some [[("hayashi", cpOf ("林社長"))],
            [("hayashi", cpOf ("林社長")), ("iwai", cpOf ("岩井社長"))],
            []]) ∧
    (cPipeline.map (fun vs => (vs.N_total, vs.N_entity)) = some (3, 2)) ∧
    ((cPipeline.bind (fun vs => dictFind vs.tiger_stats ("hayashi"))).map
      (fun s => (s.N_tiger, s.rank, s.Rate_total)) =
        some (2, 1, 200 / 3)) ∧
    ((cPipeline.bind (fun vs => dictFind vs.tiger_stats ("iwai"))).map
      (fun s => (s.N_tiger, s.rank, s.Rate_total)) =
        some (1, 2, 100 / 3)) := by
  have hA : analyze_comments cTigersKeys cAliases cComments cApp =
      some aList := by decide
  have h1 : ("hayashi" : String) ≠ "iwai" := by decide
  refine ⟨by decide, ?_, ?_, ?_⟩ <;>
    simp [cPipeline, hA, cStats_eval, dictFind, stH, stI, h1]

/-- C6 counterexample: with two analyzed comments sharing one comment id
(both mentioning `h`), the set-based denominator `N_entity` is 1 while the
count-based numerator is 2, so `Rate_entity` is 200, violating the claimed
bound `Rate_entity ≤ 100`. -/
theorem rate_entity_exceeds_100_on_duplicate_ids :
    ((calculate_video_stats [("h", "H")] dupAnalyzed ["h"]).map
      (fun vs => vs.tiger_stats.map (fun p => p.2.Rate_entity)) =
        some [200]) ∧
    ¬ ((200 : ℚ) ≤ 100) := by
  have hS : calculate_video_stats [("h", "H")] dupAnalyzed ["h"] =
      some { N_total := 2, N_entity := 1, tiger_stats := [("h", stDup)] } := by
    norm_num [calculate_video_stats, buildTigerStats, videoTigerStat,
      dictFind, dictInsert, mentionsTiger, sortByRateDesc, insertByRate,
      assignRanks, assignRanksAux, List.countP_cons, List.countP_nil,
      dupAnalyzed, stDup, TigerStat.mk.injEq]
  refine ⟨by simp [hS, stDup], by norm_num⟩

/-- C7 counterexample: with a malformed alias row (missing `'alias'`)
listed before a well-formed row that matches, `find_tiger_mentions` aborts
the whole resolution (`KeyError`, modelled `none`) instead of skipping the
bad row; the same call without the bad row returns the mention. -/
theorem malformed_alias_aborts_resolution_cex :
    find_tiger_mentions [] malAliases (cpOf ("林社長すごい")) ["e"] =
      none ∧
    (find_tiger_mentions [] [("e", [goodEntry])] (cpOf ("林社長すごい"))
      ["e"]).map (fun r => r.2.map Mention.matched_alias) =
        some [cpOf ("林社長")] := by
  exact ⟨by decide, by decide⟩

/-! ### Structural lemmas about the resolver -/

/-- Unfolding equation for `find_tiger_mentions`. -/
theorem find_tiger_mentions_eq (tigersKeys target_tigers : List String)
    (aliases : List (String × List AliasEntry)) (text : List Nat) :
    find_tiger_mentions tigersKeys aliases text target_tigers =
      (collectAll aliases (normalize_text text)
        (if target_tigers.isEmpty then tigersKeys else target_tigers)).map
        (fun all => (normalize_text text,
          (all.foldl stepBest []).map (fun p =>
            { tiger_id := p.fst, matched_alias := p.snd.aliasText,
              alias_type := p.snd.type, priority := p.snd.priority }))) := by
  simp only [find_tiger_mentions]
  cases h : collectAll aliases (normalize_text text)
      (if target_tigers.isEmpty then tigersKeys else target_tigers) <;>
    simp [h]

/-- `dictFind` returns `none` exactly on absent keys. -/
theorem dictFind_eq_none_iff {α : Type} (l : List (String × α)) (k : String) :
    dictFind l k = none ↔ k ∉ l.map Prod.fst := by
  induction l with
  | nil => simp [dictFind]
  | cons hd tl ih =>
    obtain ⟨k', v⟩ := hd
    by_cases h : k' = k
    · subst h; simp [dictFind]
    · simp only [dictFind, if_neg h, List.map_cons]
      constructor
      · intro hn hk
        rcases List.mem_cons.mp hk with h1 | h1
        · exact h h1.symm
        · exact (ih.mp hn) h1
      · intro hk
        exact ih.mpr (fun hmem => hk (List.mem_cons_of_mem _ hmem))

/-- Replacing the value of a present key leaves the key list unchanged. -/
theorem map_fst_dictInsert_of_find_some {α : Type} (l : List (String × α))
    (k : String) (v w : α) (h : dictFind l k = some w) :
    (dictInsert l k v).map Prod.fst = l.map Prod.fst := by
  induction l with
  | nil => simp [dictFind] at h
  | cons hd tl ih =>
    obtain ⟨k', u⟩ := hd
    by_cases hk : k' = k
    · subst hk; simp [dictInsert]
    · rw [dictFind, if_neg hk] at h
      simp [dictInsert, hk, ih h]

/-- One winner-selection step either keeps the key list or appends the
match's (absent) tiger id at the end. -/
theorem map_fst_stepBest (bm : List (String × AliasMatch)) (m : AliasMatch) :
    (stepBest bm m).map Prod.fst = bm.map Prod.fst ∨
    ((stepBest bm m).map Prod.fst = bm.map Prod.fst ++ [m.tiger_id] ∧
      dictFind bm m.tiger_id = none) := by
  unfold stepBest
  cases h : dictFind bm m.tiger_id with
  | none => right; simp
  | some old =>
    left
    by_cases hs : scoreLt m.score old.score = true
    · simp only [if_pos hs]
      exact map_fst_dictInsert_of_find_some bm m.tiger_id m old h
    · simp only [if_neg hs]

/-- Winner selection preserves key distinctness. -/
theorem nodup_keys_stepBest (bm : List (String × AliasMatch)) (m : AliasMatch)
    (h : (bm.map Prod.fst).Nodup) : ((stepBest bm m).map Prod.fst).Nodup := by
  rcases map_fst_stepBest bm m with he | ⟨he, hf⟩
  · rw [he]; exact h
  · rw [he]
    have hnm : m.tiger_id ∉ bm.map Prod.fst :=
      (dictFind_eq_none_iff bm m.tiger_id).mp hf
    simp [List.nodup_append, h, hnm]

/-- The whole winner-selection fold preserves key distinctness. -/
theorem nodup_keys_foldl (ms : List AliasMatch) :
    ∀ bm, (bm.map Prod.fst).Nodup →
      ((ms.foldl stepBest bm).map Prod.fst).Nodup := by
  induction ms with
  | nil => intro bm h; simpa using h
  | cons m rest ih => intro bm h; exact ih _ (nodup_keys_stepBest bm m h)

/-- Every key produced by one winner-selection step is an old key or the
match's tiger id. -/
theorem mem_map_fst_stepBest (bm : List (String × AliasMatch))
    (m : AliasMatch) (k : String) (h : k ∈ (stepBest bm m).map Prod.fst) :
    k ∈ bm.map Prod.fst ∨ k = m.tiger_id := by
  rcases map_fst_stepBest bm m with he | ⟨he, _⟩ <;> rw [he] at h
  · exact Or.inl h
  · rcases List.mem_append.mp h with h' | h'
    · exact Or.inl h'
    · exact Or.inr (by simpa using h')

/-- Every key produced by the winner-selection fold is an initial key or
the tiger id of some collected match. -/
theorem mem_map_fst_foldl (ms : List AliasMatch) :
    ∀ bm k, k ∈ (ms.foldl stepBest bm).map Prod.fst →
      k ∈ bm.map Prod.fst ∨ ∃ m ∈ ms, m.tiger_id = k := by
  induction ms with
  | nil => intro bm k h; exact Or.inl (by simpa using h)
  | cons m rest ih =>
    intro bm k h
    rcases ih (stepBest bm m) k (by simpa using h) with h' | ⟨m', hm', rfl⟩
    · rcases mem_map_fst_stepBest bm m k h' with h'' | rfl
      · exact Or.inl h''
      · exact Or.inr ⟨m, by simp, rfl⟩
    · exact Or.inr ⟨m', by simp [hm'], rfl⟩

/-- Every match collected for a tiger carries that tiger's id. -/
theorem collectForTiger_tiger_id (ntext : List Nat) (tid : String)
    (entries : List AliasEntry) :
    ∀ ms, collectForTiger ntext tid entries = some ms →
      ∀ m ∈ ms, m.tiger_id = tid := by
  induction entries with
  | nil =>
    intro ms h m hm
    simp only [collectForTiger, Option.some.injEq] at h
    subst h; cases hm
  | cons e rest ih =>
    intro ms h m hm
    cases hA : e.aliasText with
    | none => simp [collectForTiger, hA] at h
    | some a =>
    cases hT : e.type with
    | none => simp [collectForTiger, hA, hT] at h
    | some ty =>
    cases hP : e.priority with
    | none => simp [collectForTiger, hA, hT, hP] at h
    | some pr =>
    cases hR : collectForTiger ntext tid rest with
    | none => simp [collectForTiger, hA, hT, hP, hR] at h
    | some ms' =>
      cases hM : match_alias_with_boundary a ntext
          (should_require_suffix a ty) with
      | none =>
        simp only [collectForTiger, hA, hT, hP, hR, hM,
          Option.some.injEq] at h
        subst h; exact ih ms' hR m hm
      | some pos =>
        simp only [collectForTiger, hA, hT, hP, hR, hM,
          Option.some.injEq] at h
        subst h
        rcases List.mem_cons.mp hm with rfl | hm'
        · rfl
        · exact ih ms' hR m hm'

/-- Every collected match's tiger id is one of the scanned targets. -/
theorem collectAll_tiger_mem (aliases : List (String × List AliasEntry))
    (ntext : List Nat) (targets : List String) :
    ∀ all, collectAll aliases ntext targets = some all →
      ∀ m ∈ all, m.tiger_id ∈ targets := by
  induction targets with
  | nil =>
    intro all h m hm
    simp only [collectAll, Option.some.injEq] at h
    subst h; cases hm
  | cons tid rest ih =>
    intro all h m hm
    cases hF : dictFind aliases tid with
    | none =>
      simp only [collectAll, hF] at h
      exact List.mem_cons_of_mem _ (ih all h m hm)
    | some entries =>
      cases hC : collectForTiger ntext tid entries with
      | none => simp [collectAll, hF, hC] at h
      | some ms =>
        cases hRest : collectAll aliases ntext rest with
        | none => simp [collectAll, hF, hC, hRest] at h
        | some more =>
          simp only [collectAll, hF, hC, hRest, Option.some.injEq] at h
          subst h
          rcases List.mem_append.mp hm with h1 | h1
          · rw [collectForTiger_tiger_id ntext tid entries ms hC m h1]
            exact List.mem_cons_self tid rest
          · exact List.mem_cons_of_mem _ (ih more hRest m h1)

/-- A row with a missing field makes the whole per-tiger collection raise. -/
theorem collectForTiger_none_of_malformed (ntext : List Nat) (tid : String)
    (entries : List AliasEntry) (e : AliasEntry) (he : e ∈ entries)
    (hbad : e.aliasText = none ∨ e.type = none ∨ e.priority = none) :
    collectForTiger ntext tid entries = none := by
  induction entries with
  | nil => cases he
  | cons hd tl ih =>
    rcases List.mem_cons.mp he with rfl | hmem
    · cases hA : e.aliasText with
      | none => simp [collectForTiger, hA]
      | some a =>
        cases hT : e.type with
        | none => simp [collectForTiger, hA, hT]
        | some ty =>
          cases hP : e.priority with
          | none => simp [collectForTiger, hA, hT, hP]
          | some pr =>
            exfalso
            rcases hbad with h | h | h
            · rw [hA] at h; cases h
            · rw [hT] at h; cases h
            · rw [hP] at h; cases h
    · have htl := ih hmem
      cases hA : hd.aliasText with
      | none => simp [collectForTiger, hA]
      | some a =>
        cases hT : hd.type with
        | none => simp [collectForTiger, hA, hT]
        | some ty =>
          cases hP : hd.priority with
          | none => simp [collectForTiger, hA, hT, hP]
          | some pr => simp [collectForTiger, hA, hT, hP, htl]

/-- A raising per-tiger collection makes the whole scan raise. -/
theorem collectAll_eq_none (aliases : List (String × List AliasEntry))
    (ntext : List Nat) (tid : String) (entries : List AliasEntry)
    (hfind : dictFind aliases tid = some entries)
    (hnone : collectForTiger ntext tid entries = none) :
    ∀ targets : List String, tid ∈ targets →
      collectAll aliases ntext targets = none := by
  intro targets
  induction targets with
  | nil => intro h; cases h
  | cons hd tl ih =>
    intro hmem
    rcases List.mem_cons.mp hmem with rfl | hm
    · simp [collectAll, hfind, hnone]
    · cases hF : dictFind aliases hd with
      | none => simp [collectAll, hF, ih hm]
      | some es =>
        cases hC : collectForTiger ntext hd es with
        | none => simp [collectAll, hF, hC]
        | some ms => simp [collectAll, hF, hC, ih hm]

/-! ### Claim theorems: resolver invariants -/

/-- C1: for every comment text and candidate list, the returned mention
list has at most one mention per entity: the tiger ids are pairwise
distinct. -/
theorem find_tiger_mentions_nodup_tiger_ids (tigersKeys target_tigers :
    List String) (aliases : List (String × List AliasEntry))
    (text : List Nat) (res : List Nat × List Mention)
    (h : find_tiger_mentions tigersKeys aliases text target_tigers =
      some res) : (res.2.map Mention.tiger_id).Nodup := by
  rw [find_tiger_mentions_eq] at h
  rcases Option.map_eq_some'.mp h with ⟨all, hall, hres⟩
  subst hres
  simp only [List.map_map]
  exact nodup_keys_foldl all [] (by simp)

/-- Witness for C1 at the second scenario comment. -/
theorem find_tiger_mentions_nodup_tiger_ids_witness :
    ((((find_tiger_mentions cTigersKeys cAliases
        (cpOf ("岩井社長と林社長の対決が面白い")) cApp).getD
          ([], [])).2).map Mention.tiger_id).Nodup :=
  find_tiger_mentions_nodup_tiger_ids cTigersKeys cApp cAliases
    (cpOf ("岩井社長と林社長の対決が面白い"))
    ((find_tiger_mentions cTigersKeys cAliases
      (cpOf ("岩井社長と林社長の対決が面白い")) cApp).getD ([], []))
    (by decide)

/-- C2: with a non-empty candidate list, no mention is ever produced for
an entity outside the list, whatever its aliases and the text. -/
theorem find_tiger_mentions_roster_scoped (tigersKeys target_tigers :
    List String) (aliases : List (String × List AliasEntry))
    (text : List Nat) (E : String) (res : List Nat × List Mention)
    (hne : target_tigers ≠ []) (hE : E ∉ target_tigers)
    (h : find_tiger_mentions tigersKeys aliases text target_tigers =
      some res) : ∀ m ∈ res.2, m.tiger_id ≠ E := by
  obtain ⟨t, ts, rfl⟩ : ∃ t ts, target_tigers = t :: ts := by
    cases target_tigers with
    | nil => exact absurd rfl hne
    | cons t ts => exact ⟨t, ts, rfl⟩
  rw [find_tiger_mentions_eq] at h
  simp only [List.isEmpty_cons, Bool.false_eq_true, if_false] at h
  rcases Option.map_eq_some'.mp h with ⟨all, hall, hres⟩
  subst hres
  intro m hm hEq
  rcases List.mem_map.mp hm with ⟨p, hp, rfl⟩
  have hEq' : p.1 = E := hEq
  have hk : p.1 ∈ (List.foldl stepBest [] all).map Prod.fst :=
    List.mem_map_of_mem _ hp
  rcases mem_map_fst_foldl all [] p.1 hk with h0 | ⟨m', hm', hid⟩
  · simp at h0
  · have hmem : m'.tiger_id ∈ t :: ts :=
      collectAll_tiger_mem aliases (normalize_text text) (t :: ts) all hall
        m' hm'
    rw [hid, hEq'] at hmem
    exact hE hmem

/-- Witness for C2: the roster-external id noguchi never appears. -/
theorem find_tiger_mentions_roster_scoped_witness :
    "noguchi" ∉ (((find_tiger_mentions cTigersKeys cAliases
      (cpOf ("林社長すごい!")) cApp).getD ([], [])).2.map
        Mention.tiger_id) := by
  intro hmem
  rcases List.mem_map.mp hmem with ⟨m, hm, hEq⟩
  exact find_tiger_mentions_roster_scoped cTigersKeys cApp cAliases
    (cpOf ("林社長すごい!")) "noguchi"
    ((find_tiger_mentions cTigersKeys cAliases (cpOf ("林社長すごい!"))
      cApp).getD ([], []))
    (by decide) (by decide) (by decide) m hm hEq

/-- C7 (amended): a malformed alias row for a targeted entity is not
skipped: it raises a `KeyError` that aborts the whole comment's
resolution, producing no result at all. -/
theorem malformed_alias_gives_no_result (tigersKeys target_tigers :
    List String) (aliases : List (String × List AliasEntry))
    (text : List Nat) (tid : String) (entries : List AliasEntry)
    (e : AliasEntry) (hfind : dictFind aliases tid = some entries)
    (hmem : tid ∈ target_tigers) (hne : target_tigers ≠ [])
    (he : e ∈ entries)
    (hbad : e.aliasText = none ∨ e.type = none ∨ e.priority = none) :
    find_tiger_mentions tigersKeys aliases text target_tigers = none := by
  obtain ⟨t, ts, rfl⟩ : ∃ t ts, target_tigers = t :: ts := by
    cases target_tigers with
    | nil => exact absurd rfl hne
    | cons t ts => exact ⟨t, ts, rfl⟩
  have h1 := collectForTiger_none_of_malformed (normalize_text text) tid
    entries e he hbad
  have h2 := collectAll_eq_none aliases (normalize_text text) tid entries
    hfind h1 (t :: ts) hmem
  rw [find_tiger_mentions_eq]
  simp only [List.isEmpty_cons, Bool.false_eq_true, if_false, h2,
    Option.map_none']

/-- Witness for the amended C7 on a concrete malformed dictionary. -/
theorem malformed_alias_gives_no_result_witness :
    find_tiger_mentions [] malAliases (cpOf ("今日も面白い")) ["e"] =
      none :=
  malformed_alias_gives_no_result [] ["e"] malAliases
    (cpOf ("今日も面白い")) "e" [malformedEntry, goodEntry] malformedEntry
    (by decide) (by decide) (by decide) (by decide) (by decide)

/-- A missing roster entry for a listed appearing tiger aborts the
stats-building loop. -/
theorem buildTigerStats_eq_none (tigers : List (String × String))
    (analyzed : List AnalyzedComment) (N_total N_entity : Nat)
    (tid : String) (hfind : dictFind tigers tid = none) :
    ∀ appearing : List String, tid ∈ appearing → ∀ acc,
      buildTigerStats tigers analyzed N_total N_entity appearing acc =
        none := by
  intro appearing
  induction appearing with
  | nil => intro h; cases h
  | cons hd tl ih =>
    intro hmem acc
    rcases List.mem_cons.mp hmem with rfl | hm
    · simp [buildTigerStats, videoTigerStat, hfind]
    · cases hV : videoTigerStat tigers analyzed N_total N_entity hd with
      | none => simp [buildTigerStats, hV]
      | some st => simp [buildTigerStats, hV, ih hm]

/-- C10: `calculate_video_stats` is total only when every appearing id is
a roster key: an appearing id absent from the roster makes the
display-name lookup raise (`KeyError`), and no stats result is produced. -/
theorem video_stats_keyerror_on_unknown_tiger (tigers :
    List (String × String)) (analyzed : List AnalyzedComment)
    (appearing : List String) (tid : String) (hmem : tid ∈ appearing)
    (hfind : dictFind tigers tid = none) :
    calculate_video_stats tigers analyzed appearing = none := by
  simp only [calculate_video_stats]
  rw [buildTigerStats_eq_none tigers analyzed _ _ tid hfind appearing hmem
    []]

/-- Witness for C10: appearing id `x` is missing from the roster. -/
theorem video_stats_keyerror_on_unknown_tiger_witness :
    calculate_video_stats [("h", "H")] [] ["x"] = none :=
  video_stats_keyerror_on_unknown_tiger [("h", "H")] [] ["x"] "x"
    (by decide) (by decide)

/-! ### Rate-bound lemmas for the aggregator -/

/-- Members of an ordered-dictionary assignment are the new pair or old
pairs. -/
theorem mem_dictInsert {α : Type} (l : List (String × α)) (k : String)
    (v : α) (p : String × α) (h : p ∈ dictInsert l k v) :
    p = (k, v) ∨ p ∈ l := by
  induction l with
  | nil => simpa [dictInsert] using h
  | cons hd tl ih =>
    obtain ⟨k', u⟩ := hd
    by_cases hk : k' = k
    · subst hk
      simp only [dictInsert, if_pos rfl] at h
      rcases List.mem_cons.mp h with rfl | h'
      · exact Or.inl rfl
      · exact Or.inr (List.mem_cons_of_mem _ h')
    · simp only [dictInsert, if_neg hk] at h
      rcases List.mem_cons.mp h with rfl | h'
      · exact Or.inr (List.mem_cons_self _ _)
      · rcases ih h' with h'' | h''
        · exact Or.inl h''
        · exact Or.inr (List.mem_cons_of_mem _ h'')

/-- Every value in the built stats dictionary is an initial value or a
`videoTigerStat` output. -/
theorem buildTigerStats_values (tigers : List (String × String))
    (analyzed : List AnalyzedComment) (N_total N_entity : Nat) :
    ∀ (appearing : List String) (acc res : List (String × TigerStat)),
      buildTigerStats tigers analyzed N_total N_entity appearing acc =
        some res →
      ∀ p ∈ res, p ∈ acc ∨ ∃ tid,
        videoTigerStat tigers analyzed N_total N_entity tid = some p.2 := by
  intro appearing
  induction appearing with
  | nil =>
    intro acc res h p hp
    simp only [buildTigerStats, Option.some.injEq] at h
    subst h
    exact Or.inl hp
  | cons hd tl ih =>
    intro acc res h p hp
    cases hV : videoTigerStat tigers analyzed N_total N_entity hd with
    | none => simp [buildTigerStats, hV] at h
    | some st =>
      simp only [buildTigerStats, hV] at h
      rcases ih (dictInsert acc hd st) res h p hp with hacc | hvt
      · rcases mem_dictInsert acc hd st p hacc with rfl | h'
        · exact Or.inr ⟨hd, hV⟩
        · exact Or.inl h'
      · exact Or.inr hvt

/-- Members of a stable insertion are the inserted element or old ones. -/
theorem mem_insertByRate (x y : TigerStat) (l : List TigerStat)
    (h : y ∈ insertByRate x l) : y = x ∨ y ∈ l := by
  induction l with
  | nil => simpa [insertByRate] using h
  | cons hd tl ih =>
    by_cases hc : hd.Rate_total < x.Rate_total
    · simp only [insertByRate, if_pos hc] at h
      rcases List.mem_cons.mp h with rfl | h'
      · exact Or.inl rfl
      · exact Or.inr h'
    · simp only [insertByRate, if_neg hc] at h
      rcases List.mem_cons.mp h with rfl | h'
      · exact Or.inr (List.mem_cons_self _ _)
      · rcases ih h' with h'' | h''
        · exact Or.inl h''
        · exact Or.inr (List.mem_cons_of_mem _ h'')

/-- Members of the descending sort come from the accumulator or input. -/
theorem mem_sortByRateDesc (l : List TigerStat) :
    ∀ acc y, y ∈ l.foldl (fun acc x => insertByRate x acc) acc →
      y ∈ acc ∨ y ∈ l := by
  induction l with
  | nil => intro acc y h; exact Or.inl (by simpa using h)
  | cons hd tl ih =>
    intro acc y h
    rcases ih (insertByRate hd acc) y (by simpa using h) with h' | h'
    · rcases mem_insertByRate hd y acc h' with rfl | h''
      · exact Or.inr (List.mem_cons_self _ _)
      · exact Or.inl h''
    · exact Or.inr (List.mem_cons_of_mem _ h')

/-- Rank assignment only changes ranks: each output element shares its
rate fields with some input element. -/
theorem mem_assignRanksAux (l : List TigerStat) :
    ∀ r y, y ∈ assignRanksAux r l → ∃ s ∈ l,
      y.Rate_total = s.Rate_total ∧ y.Rate_entity = s.Rate_entity := by
  induction l with
  | nil => intro r y h; cases h
  | cons hd tl ih =>
    intro r y h
    rcases List.mem_cons.mp h with rfl | h'
    · exact ⟨hd, List.mem_cons_self _ _, rfl, rfl⟩
    · rcases ih (r + 1) y h' with ⟨s, hs, h1, h2⟩
      exact ⟨s, List.mem_cons_of_mem _ hs, h1, h2⟩

/-- Counting a stronger predicate counts no more than a weaker one. -/
theorem countP_le_countP_of_imp {α : Type} (p q : α → Bool) (l : List α)
    (h : ∀ a ∈ l, p a = true → q a = true) : l.countP p ≤ l.countP q := by
  induction l with
  | nil => simp
  | cons a t ih =>
    have ht := ih (fun b hb hpb => h b (List.mem_cons_of_mem a hb) hpb)
    rw [List.countP_cons, List.countP_cons]
    by_cases hp : p a = true
    · have hq := h a (List.mem_cons_self a t) hp
      simp only [hp, hq, if_true]
      omega
    · rw [if_neg hp]
      split <;> omega

/-- With pairwise-distinct comment ids, the per-entity numerator is at
most the set-based `N_entity` denominator. -/
theorem countP_mentions_le_N_entity (analyzed : List AnalyzedComment)
    (tid : String)
    (hnd : (analyzed.map AnalyzedComment.comment_id).Nodup) :
    analyzed.countP (fun c => mentionsTiger c tid) ≤
      (((analyzed.filter (fun c => !c.tiger_mentions.isEmpty)).map
        (fun c => c.comment_id)).dedup).length := by
  have hsub : List.Sublist
      ((analyzed.filter (fun c => !c.tiger_mentions.isEmpty)).map
        (fun c => c.comment_id))
      (analyzed.map (fun c => c.comment_id)) :=
    (List.filter_sublist analyzed).map _
  have hnd2 : ((analyzed.filter (fun c => !c.tiger_mentions.isEmpty)).map
      (fun c => c.comment_id)).Nodup := hnd.sublist hsub
  rw [List.dedup_eq_self.mpr hnd2, List.length_map,
    ← List.countP_eq_length_filter]
  refine countP_le_countP_of_imp _ _ _ ?_
  intro c hc hm
  cases hL : c.tiger_mentions with
  | nil => simp [mentionsTiger, hL] at hm
  | cons m ms => simp [hL]

/-- Bounds for one `videoTigerStat` row, with the numerator-denominator
inequalities as explicit hypotheses where needed. -/
theorem videoTigerStat_bounds (tigers : List (String × String))
    (analyzed : List AnalyzedComment) (N_entity : Nat) (tid : String)
    (st : TigerStat)
    (h : videoTigerStat tigers analyzed analyzed.length N_entity tid =
      some st) :
    0 ≤ st.Rate_total ∧ st.Rate_total ≤ 100 ∧
    (analyzed.length = 0 → st.Rate_total = 0) ∧
    0 ≤ st.Rate_entity ∧ (N_entity = 0 → st.Rate_entity = 0) ∧
    (analyzed.countP (fun c => mentionsTiger c tid) ≤ N_entity →
      st.Rate_entity ≤ 100) := by
  cases hF : dictFind tigers tid with
  | none => simp [videoTigerStat, hF] at h
  | some dname =>
    simp only [videoTigerStat, hF, Option.some.injEq] at h
    subst h
    dsimp only
    set n := analyzed.countP (fun c => mentionsTiger c tid) with hn
    have hnle : n ≤ analyzed.length := List.countP_le_length _
    refine ⟨?_, ?_, ?_, ?_, ?_, ?_⟩
    · by_cases hN : 0 < analyzed.length
      · rw [if_pos hN]; positivity
      · rw [if_neg hN]
    · by_cases hN : 0 < analyzed.length
      · rw [if_pos hN]
        have h1 : (n : ℚ) / (analyzed.length : ℚ) ≤ 1 :=
          div_le_one_of_le₀ (by exact_mod_cast hnle) (by positivity)
        calc (n : ℚ) / (analyzed.length : ℚ) * 100 ≤ 1 * 100 :=
              mul_le_mul_of_nonneg_right h1 (by norm_num)
          _ = 100 := by norm_num
      · rw [if_neg hN]; norm_num
    · intro h0; rw [if_neg (by omega)]
    · by_cases hN : 0 < N_entity
      · rw [if_pos hN]; positivity
      · rw [if_neg hN]
    · intro h0; rw [if_neg (by omega)]
    · intro hle
      by_cases hN : 0 < N_entity
      · rw [if_pos hN]
        have h1 : (n : ℚ) / (N_entity : ℚ) ≤ 1 :=
          div_le_one_of_le₀ (by exact_mod_cast hle) (by positivity)
        calc (n : ℚ) / (N_entity : ℚ) * 100 ≤ 1 * 100 :=
              mul_le_mul_of_nonneg_right h1 (by norm_num)
          _ = 100 := by norm_num
      · rw [if_neg hN]; norm_num

/-- C6 (amended): every per-entity row of `calculate_video_stats`
satisfies `0 ≤ Rate_total ≤ 100` and `0 ≤ Rate_entity`, both rates are 0
when their denominator (`N_total` resp. `N_entity`) is 0, and no
division-by-zero error is raised; `Rate_entity ≤ 100` additionally holds
whenever the analyzed comments' ids are pairwise distinct (the code
counts distinct ids in the denominator but raw comments in the
numerator). -/
theorem video_stats_rate_bounds (tigers : List (String × String))
    (analyzed : List AnalyzedComment) (appearing : List String)
    (vs : VideoStats)
    (h : calculate_video_stats tigers analyzed appearing = some vs) :
    (∀ p ∈ vs.tiger_stats, 0 ≤ p.2.Rate_total ∧ p.2.Rate_total ≤ 100 ∧
      (vs.N_total = 0 → p.2.Rate_total = 0) ∧ 0 ≤ p.2.Rate_entity ∧
      (vs.N_entity = 0 → p.2.Rate_entity = 0)) ∧
    ((analyzed.map AnalyzedComment.comment_id).Nodup →
      ∀ p ∈ vs.tiger_stats, p.2.Rate_entity ≤ 100) := by
  simp only [calculate_video_stats] at h
  set NE := (((analyzed.filter (fun c => !c.tiger_mentions.isEmpty)).map
    (fun c => c.comment_id)).dedup).length with hNE
  cases hB : buildTigerStats tigers analyzed analyzed.length NE appearing
      [] with
  | none => rw [hB] at h; cases h
  | some ts =>
    rw [hB] at h
    injection h with h'
    subst h'
    dsimp only
    have key : ∀ p ∈ (assignRanks (sortByRateDesc (ts.map Prod.snd))).map
        (fun s => (s.tiger_id, s)), ∃ tid st0,
        videoTigerStat tigers analyzed analyzed.length NE tid =
          some st0 ∧
        p.2.Rate_total = st0.Rate_total ∧
        p.2.Rate_entity = st0.Rate_entity := by
      intro p hp
      rcases List.mem_map.mp hp with ⟨s, hs, rfl⟩
      rcases mem_assignRanksAux _ 1 s hs with ⟨s0, hs0, hr1, hr2⟩
      rcases mem_sortByRateDesc (ts.map Prod.snd) [] s0 hs0 with h0 | h0
      · cases h0
      · rcases List.mem_map.mp h0 with ⟨q, hq, rfl⟩
        rcases buildTigerStats_values tigers analyzed analyzed.length NE
            appearing [] ts hB q hq with hacc | ⟨tid, hvt⟩
        · cases hacc
        · exact ⟨tid, q.2, hvt, hr1, hr2⟩
    constructor
    · intro p hp
      rcases key p hp with ⟨tid, st0, hvt, hr1, hr2⟩
      have hb := videoTigerStat_bounds tigers analyzed NE tid st0 hvt
      refine ⟨?_, ?_, ?_, ?_, ?_⟩
      · rw [hr1]; exact hb.1
      · rw [hr1]; exact hb.2.1
      · intro h0; rw [hr1]; exact hb.2.2.1 h0
      · rw [hr2]; exact hb.2.2.2.1
      · intro h0; rw [hr2]; exact hb.2.2.2.2.1 h0
    · intro hnd p hp
      rcases key p hp with ⟨tid, st0, hvt, hr1, hr2⟩
      have hb := videoTigerStat_bounds tigers analyzed NE tid st0 hvt
      have hcnt := countP_mentions_le_N_entity analyzed tid hnd
      rw [← hNE] at hcnt
      rw [hr2]
      exact hb.2.2.2.2.2 hcnt

/-- Witness for the amended C6 on the scenario's stats. -/
theorem video_stats_rate_bounds_witness :
    (∀ p ∈ cVS.tiger_stats, 0 ≤ p.2.Rate_total ∧ p.2.Rate_total ≤ 100 ∧
      (cVS.N_total = 0 → p.2.Rate_total = 0) ∧ 0 ≤ p.2.Rate_entity ∧
      (cVS.N_entity = 0 → p.2.Rate_entity = 0)) ∧
    ((aList.map AnalyzedComment.comment_id).Nodup →
      ∀ p ∈ cVS.tiger_stats, p.2.Rate_entity ≤ 100) :=
  video_stats_rate_bounds cTigers aList cApp cVS cStats_eval

/-! ### Idempotence of normalization -/

/-- The NFKC fold is idempotent character-wise. -/
theorem nfkcCp_idem (n : Nat) : nfkcCp (nfkcCp n) = nfkcCp n := by
  by_cases h1 : 0xFF01 ≤ n ∧ n ≤ 0xFF5E
  · have e : nfkcCp n = n - 0xFEE0 := by unfold nfkcCp; rw [if_pos h1]
    rw [e]
    have h2 : ¬(0xFF01 ≤ n - 0xFEE0 ∧ n - 0xFEE0 ≤ 0xFF5E) := by omega
    have h3 : ¬(n - 0xFEE0 = 0x3000) := by omega
    unfold nfkcCp
    rw [if_neg h2, if_neg h3]
  · by_cases h2 : n = 0x3000
    · subst h2; decide
    · have e : nfkcCp n = n := by unfold nfkcCp; rw [if_neg h1, if_neg h2]
      rw [e, e]

/-- Unfolding: a whitespace head inside a run is dropped. -/
theorem collapseAux_cons_space_true (a : Nat) (t : List Nat)
    (h : isSpaceCp a = true) :
    collapseAux true (a :: t) = collapseAux true t := by
  simp [collapseAux, h]

/-- Unfolding: a whitespace head outside a run emits one space. -/
theorem collapseAux_cons_space_false (a : Nat) (t : List Nat)
    (h : isSpaceCp a = true) :
    collapseAux false (a :: t) = 32 :: collapseAux true t := by
  simp [collapseAux, h]

/-- Unfolding: a non-whitespace head is kept and ends any run. -/
theorem collapseAux_cons_nonspace (b : Bool) (a : Nat) (t : List Nat)
    (h : isSpaceCp a = false) :
    collapseAux b (a :: t) = a :: collapseAux false t := by
  simp [collapseAux, h]

/-- Characters of the collapsed text are a space or input characters. -/
theorem mem_collapseAux : ∀ (l : List Nat) (b : Bool) (c : Nat),
    c ∈ collapseAux b l → c = 32 ∨ c ∈ l := by
  intro l
  induction l with
  | nil => intro b c h; cases h
  | cons a t ih =>
    intro b c h
    by_cases ha : isSpaceCp a = true
    · cases b with
      | true =>
        rw [collapseAux_cons_space_true a t ha] at h
        rcases ih true c h with h' | h'
        · exact Or.inl h'
        · exact Or.inr (List.mem_cons_of_mem _ h')
      | false =>
        rw [collapseAux_cons_space_false a t ha] at h
        rcases List.mem_cons.mp h with rfl | h'
        · exact Or.inl rfl
        · rcases ih true c h' with h'' | h''
          · exact Or.inl h''
          · exact Or.inr (List.mem_cons_of_mem _ h'')
    · rw [collapseAux_cons_nonspace b a t (by simpa using ha)] at h
      rcases List.mem_cons.mp h with rfl | h'
      · exact Or.inr (List.mem_cons_self _ _)
      · rcases ih false c h' with h'' | h''
        · exact Or.inl h''
        · exact Or.inr (List.mem_cons_of_mem _ h'')

/-- Every whitespace character of the collapsed text is the space 32. -/
theorem spaces_collapseAux : ∀ (l : List Nat) (b : Bool) (c : Nat),
    c ∈ collapseAux b l → isSpaceCp c = true → c = 32 := by
  intro l
  induction l with
  | nil => intro b c h; cases h
  | cons a t ih =>
    intro b c h hsc
    by_cases ha : isSpaceCp a = true
    · cases b with
      | true =>
        rw [collapseAux_cons_space_true a t ha] at h
        exact ih true c h hsc
      | false =>
        rw [collapseAux_cons_space_false a t ha] at h
        rcases List.mem_cons.mp h with rfl | h'
        · rfl
        · exact ih true c h' hsc
    · rw [collapseAux_cons_nonspace b a t (by simpa using ha)] at h
      rcases List.mem_cons.mp h with rfl | h'
      · exact absurd hsc (by simpa using ha)
      · exact ih false c h' hsc

/-- In-run collapsing never emits a leading whitespace character. -/
theorem head_collapseAux_true : ∀ (l : List Nat) (c : Nat),
    (collapseAux true l).head? = some c → isSpaceCp c = false := by
  intro l
  induction l with
  | nil => intro c h; cases h
  | cons a t ih =>
    intro c h
    by_cases ha : isSpaceCp a = true
    · rw [collapseAux_cons_space_true a t ha] at h
      exact ih c h
    · rw [collapseAux_cons_nonspace true a t (by simpa using ha)] at h
      rw [List.head?_cons] at h
      injection h with h'
      subst h'
      simpa using ha

/-- The collapsed text never has two adjacent whitespace characters. -/
theorem chain_collapseAux : ∀ (l : List Nat) (b : Bool),
    List.Chain' spaceAdj (collapseAux b l) := by
  intro l
  induction l with
  | nil => intro b; simp [collapseAux]
  | cons a t ih =>
    intro b
    by_cases ha : isSpaceCp a = true
    · cases b with
      | true =>
        rw [collapseAux_cons_space_true a t ha]
        exact ih true
      | false =>
        rw [collapseAux_cons_space_false a t ha, List.chain'_cons']
        refine ⟨fun y hy => Or.inr (head_collapseAux_true t y hy), ih true⟩
    · rw [collapseAux_cons_nonspace b a t (by simpa using ha),
        List.chain'_cons']
      refine ⟨fun y hy => Or.inl (by simpa using ha), ih false⟩

/-- A text whose whitespace is all single spaces 32 is a fixed point of
collapsing. -/
theorem collapseAux_fix : ∀ (y : List Nat),
    (∀ c ∈ y, isSpaceCp c = true → c = 32) → List.Chain' spaceAdj y →
    (collapseAux false y = y ∧
      ((∀ c, y.head? = some c → isSpaceCp c = false) →
        collapseAux true y = y)) := by
  intro y
  induction y with
  | nil => intro _ _; exact ⟨rfl, fun _ => rfl⟩
  | cons a t ih =>
    intro hs hc
    have hs' : ∀ c ∈ t, isSpaceCp c = true → c = 32 :=
      fun c hct => hs c (List.mem_cons_of_mem _ hct)
    have hhead := (List.chain'_cons'.mp hc).1
    have hc' : List.Chain' spaceAdj t := (List.chain'_cons'.mp hc).2
    rcases ih hs' hc' with ⟨ihf, iht⟩
    by_cases ha : isSpaceCp a = true
    · have ha32 : a = 32 := hs a (List.mem_cons_self _ _) ha
      have htfix : collapseAux true t = t := by
        apply iht
        intro c hcHead
        rcases hhead c hcHead with h | h
        · rw [ha] at h; cases h
        · exact h
      constructor
      · rw [collapseAux_cons_space_false a t ha, htfix, ha32]
      · intro hHead
        have h0 := hHead a rfl
        rw [ha] at h0; cases h0
    · have ha' : isSpaceCp a = false := by simpa using ha
      constructor
      · rw [collapseAux_cons_nonspace false a t ha', ihf]
      · intro _
        rw [collapseAux_cons_nonspace true a t ha', ihf]

/-- The stripped text starts with a non-whitespace character. -/
theorem ltrim_head : ∀ (l : List Nat) (c : Nat),
    (ltrim l).head? = some c → isSpaceCp c = false := by
  intro l
  induction l with
  | nil => intro c h; cases h
  | cons a t ih =>
    intro c h
    by_cases ha : isSpaceCp a = true
    · unfold ltrim at h
      rw [List.dropWhile_cons_of_pos (by simpa using ha)] at h
      exact ih c h
    · unfold ltrim at h
      rw [List.dropWhile_cons_of_neg (by simpa using ha)] at h
      rw [List.head?_cons] at h
      injection h with h'
      subst h'
      simpa using ha

/-- A text with a non-whitespace head is a fixed point of left trim. -/
theorem ltrim_fix (l : List Nat)
    (h : ∀ c, l.head? = some c → isSpaceCp c = false) : ltrim l = l := by
  cases l with
  | nil => rfl
  | cons a t =>
    have h0 := h a rfl
    unfold ltrim
    rw [List.dropWhile_cons_of_neg (by simp [h0])]

/-- Left trim is idempotent. -/
theorem ltrim_idem (l : List Nat) : ltrim (ltrim l) = ltrim l :=
  ltrim_fix _ (ltrim_head l)

/-- Right trim is idempotent. -/
theorem rtrim_idem (l : List Nat) : rtrim (rtrim l) = rtrim l := by
  unfold rtrim
  rw [List.reverse_reverse, ltrim_idem]

/-- Right trim removes a suffix: what remains is an initial segment. -/
theorem rtrim_append (l : List Nat) : ∃ t, rtrim l ++ t = l := by
  obtain ⟨t, ht⟩ :=
    List.dropWhile_suffix (l := l.reverse) (fun c => isSpaceCp c)
  refine ⟨t.reverse, ?_⟩
  have h2 := congrArg List.reverse ht
  rw [List.reverse_append] at h2
  rw [List.reverse_reverse] at h2
  exact h2

/-- The head survives right trim. -/
theorem head_rtrim (l : List Nat) (c : Nat)
    (h : (rtrim l).head? = some c) : l.head? = some c := by
  obtain ⟨t, ht⟩ := rtrim_append l
  rw [← ht, List.head?_append, h]
  rfl

/-- `str.strip()` is idempotent. -/
theorem stripWS_idem (l : List Nat) : stripWS (stripWS l) = stripWS l := by
  unfold stripWS
  have h1 : ltrim (rtrim (ltrim l)) = rtrim (ltrim l) := by
    apply ltrim_fix
    intro c hc
    exact ltrim_head l c (head_rtrim (ltrim l) c hc)
  rw [h1, rtrim_idem]

/-- Characters of the stripped text are input characters. -/
theorem mem_stripWS (l : List Nat) (c : Nat) (h : c ∈ stripWS l) :
    c ∈ l := by
  obtain ⟨t, ht⟩ := rtrim_append (ltrim l)
  have h1 : c ∈ ltrim l := by
    rw [← ht]
    exact List.mem_append_left _ h
  obtain ⟨s, hs⟩ := List.dropWhile_suffix (l := l) (fun c => isSpaceCp c)
  rw [← hs]
  exact List.mem_append_right _ h1

/-- Left trim preserves the no-adjacent-whitespace invariant. -/
theorem chain_ltrim (l : List Nat) (h : List.Chain' spaceAdj l) :
    List.Chain' spaceAdj (ltrim l) := by
  obtain ⟨s, hs⟩ := List.dropWhile_suffix (l := l) (fun c => isSpaceCp c)
  rw [← hs] at h
  exact h.right_of_append

/-- Reversal preserves the (symmetric) no-adjacent-whitespace invariant. -/
theorem chain_reverse_spaceAdj (l : List Nat)
    (h : List.Chain' spaceAdj l) : List.Chain' spaceAdj l.reverse := by
  rw [List.chain'_reverse]
  exact h.imp (fun a b hab => hab.symm)

/-- Right trim preserves the no-adjacent-whitespace invariant. -/
theorem chain_rtrim (l : List Nat) (h : List.Chain' spaceAdj l) :
    List.Chain' spaceAdj (rtrim l) := by
  unfold rtrim
  exact chain_reverse_spaceAdj _ (chain_ltrim _ (chain_reverse_spaceAdj _ h))

/-- Stripping preserves the no-adjacent-whitespace invariant. -/
theorem chain_stripWS (l : List Nat) (h : List.Chain' spaceAdj l) :
    List.Chain' spaceAdj (stripWS l) :=
  chain_rtrim _ (chain_ltrim _ h)

/-- A map whose function fixes every member is the identity. -/
theorem map_fix {f : Nat → Nat} : ∀ (l : List Nat),
    (∀ c ∈ l, f c = c) → l.map f = l := by
  intro l
  induction l with
  | nil => intro _; rfl
  | cons a t ih =>
    intro h
    rw [List.map_cons, h a (List.mem_cons_self _ _),
      ih (fun c hc => h c (List.mem_cons_of_mem _ hc))]

/-- C8: text normalization is idempotent, and the empty string
normalizes to the empty string (the function is total: no error
condition for any input). -/
theorem normalize_text_idempotent :
    (∀ x : List Nat,
      normalize_text (normalize_text x) = normalize_text x) ∧
    normalize_text [] = [] := by
  constructor
  · intro x
    have hmemfix : ∀ c ∈ normalize_text x, nfkcCp c = c := by
      intro c hc
      have h1 : c ∈ collapseWS (x.map nfkcCp) := mem_stripWS _ c hc
      rcases mem_collapseAux (x.map nfkcCp) false c h1 with rfl | h2
      · decide
      · rcases List.mem_map.mp h2 with ⟨d, hd, rfl⟩
        exact nfkcCp_idem d
    have hm : (normalize_text x).map nfkcCp = normalize_text x :=
      map_fix _ hmemfix
    have hspaces : ∀ c ∈ normalize_text x, isSpaceCp c = true → c = 32 :=
      fun c hc hsc =>
        spaces_collapseAux (x.map nfkcCp) false c (mem_stripWS _ c hc) hsc
    have hchain : List.Chain' spaceAdj (normalize_text x) :=
      chain_stripWS _ (chain_collapseAux (x.map nfkcCp) false)
    have hcfix : collapseWS (normalize_text x) = normalize_text x :=
      (collapseAux_fix (normalize_text x) hspaces hchain).1
    show stripWS (collapseWS ((normalize_text x).map nfkcCp)) =
      normalize_text x
    rw [hm, hcfix]
    exact stripWS_idem _
  · rfl
